import Mathlib

/-!
# Verification of the CoachRAGBot fuzzy-matching and resolution pipeline

Shallow embedding of the repository's core components:

* `GazetteerNER._best_span` (src/ner_model.py) — brute-force fuzzy substring
  search using rapidfuzz's `fuzz.ratio`;
* `GazetteerData._fill_b_clubs` (src/ner_model.py) — gazetteer construction;
* `RAGChatbot.process_query` (src/ragchatbot.py) — entity ranking and club
  resolution;
* `PromptBuilder` (src/prompt_builder.py) — prompt packages;
* `WikidataConnector.get_club_info` (src/wikidata_connector.py) — record
  extraction from a SPARQL response binding.

Strings manipulated character-wise are modelled as `List Char`; similarity
scores (Python floats) are modelled as exact rationals `ℚ`.  rapidfuzz's
`fuzz.ratio` is the normalized Indel similarity `100 * 2*LCS(s,t) / (|s|+|t|)`
(with the convention that two empty strings have ratio 100).
-/

namespace CoachRAG

/-! ## Longest common subsequence and `fuzz.ratio` -/

/-- Inner recursion for `lcsLen`: `lcsAux a g t` computes the LCS length of
`a :: s` against `t`, where `g = lcsLen s`.  (Structural recursion on `t`, so
the definition reduces in the kernel.) -/
def lcsAux (a : Char) (g : List Char → Nat) : List Char → Nat
  | [] => 0
  | b :: t => if a = b then g t + 1 else max (lcsAux a g t) (g (b :: t))

/-- Length of the longest common subsequence of two character lists.
`fuzz.ratio` in rapidfuzz is based on the Indel distance
`|s| + |t| - 2 * lcsLen s t`. -/
def lcsLen : List Char → List Char → Nat
  | [], _ => 0
  | a :: s, t => lcsAux a (lcsLen s) t

/-- The standard LCS recurrence, satisfied definitionally. -/
theorem lcsLen_cons_cons (a b : Char) (s t : List Char) :
    lcsLen (a :: s) (b :: t) =
      if a = b then lcsLen s t + 1
      else max (lcsLen (a :: s) t) (lcsLen s (b :: t)) := rfl

theorem lcsLen_nil_left (t : List Char) : lcsLen [] t = 0 := rfl

theorem lcsLen_cons_nil (a : Char) (s : List Char) : lcsLen (a :: s) [] = 0 := rfl

/-- rapidfuzz `fuzz.ratio`: normalized Indel similarity on a 0–100 scale,
`100 * (2 * LCS) / (|s| + |t|)`, with ratio 100 when both strings are empty. -/
def fuzzRatio (s t : List Char) : ℚ :=
  if s.length + t.length = 0 then 100
  else (200 * lcsLen s t : ℚ) / (s.length + t.length : ℚ)

theorem lcsLen_le_left : ∀ s t : List Char, lcsLen s t ≤ s.length := by
  intro s
  induction s with
  | nil => intro t; simp [lcsLen_nil_left]
  | cons a s ihs =>
    intro t
    induction t with
    | nil => simp [lcsLen_cons_nil]
    | cons b t iht =>
      rw [lcsLen_cons_cons]
      split
      · have := ihs t
        simp only [List.length_cons]
        omega
      · have h₁ := iht
        have h₂ := ihs (b :: t)
        simp only [List.length_cons] at *
        omega

theorem lcsLen_le_right : ∀ s t : List Char, lcsLen s t ≤ t.length := by
  intro s
  induction s with
  | nil => intro t; simp [lcsLen_nil_left]
  | cons a s ihs =>
    intro t
    induction t with
    | nil => simp [lcsLen_cons_nil]
    | cons b t iht =>
      rw [lcsLen_cons_cons]
      split
      · have := ihs t
        simp only [List.length_cons]
        omega
      · have h₁ := iht
        have h₂ := ihs (b :: t)
        simp only [List.length_cons] at *
        omega

theorem lcsLen_self : ∀ s : List Char, lcsLen s s = s.length := by
  intro s
  induction s with
  | nil => rfl
  | cons a s ih => rw [lcsLen_cons_cons, if_pos rfl, ih]; rfl

/-- If the LCS has the full length of both lists, the lists are equal. -/
theorem eq_of_lcsLen_eq_lengths :
    ∀ s t : List Char, lcsLen s t = s.length → s.length = t.length → s = t := by
  intro s
  induction s with
  | nil =>
    intro t _ hlen
    cases t with
    | nil => rfl
    | cons b t => simp at hlen
  | cons a s ihs =>
    intro t hl hlen
    cases t with
    | nil => simp at hlen
    | cons b t =>
      rw [lcsLen_cons_cons] at hl
      simp only [List.length_cons] at hl hlen
      by_cases hab : a = b
      · rw [if_pos hab] at hl
        subst hab
        rw [ihs t (by omega) (by omega)]
      · rw [if_neg hab] at hl
        have h₁ := lcsLen_le_right (a :: s) t
        have h₂ := lcsLen_le_left s (b :: t)
        simp only [List.length_cons] at h₁ h₂
        omega

theorem fuzzRatio_nonneg (s t : List Char) : 0 ≤ fuzzRatio s t := by
  unfold fuzzRatio
  split
  · norm_num
  · positivity

theorem fuzzRatio_le_100 (s t : List Char) : fuzzRatio s t ≤ 100 := by
  unfold fuzzRatio
  split
  · norm_num
  · rename_i h
    have hpos : (0 : ℚ) < (s.length : ℚ) + (t.length : ℚ) := by
      have : 0 < s.length + t.length := Nat.pos_of_ne_zero h
      exact_mod_cast this
    rw [div_le_iff₀ hpos]
    have h₁ := lcsLen_le_left s t
    have h₂ := lcsLen_le_right s t
    have h₁' : (lcsLen s t : ℚ) ≤ (s.length : ℚ) := by exact_mod_cast h₁
    have h₂' : (lcsLen s t : ℚ) ≤ (t.length : ℚ) := by exact_mod_cast h₂
    nlinarith

theorem fuzzRatio_self (s : List Char) : fuzzRatio s s = 100 := by
  unfold fuzzRatio
  split
  · rfl
  · rename_i h
    rw [lcsLen_self]
    have hs : (0 : ℚ) < s.length := by
      have : s.length ≠ 0 := by omega
      positivity
    field_simp
    ring

theorem fuzzRatio_nil_left (t : List Char) (ht : t ≠ []) : fuzzRatio [] t = 0 := by
  unfold fuzzRatio
  have : t.length ≠ 0 := by simpa using ht
  rw [if_neg (by simpa using this)]
  simp [lcsLen]

/-- A ratio of exactly 100 against a nonempty pattern forces equality. -/
theorem eq_of_fuzzRatio_eq_100 (s t : List Char) (hs : s ≠ [])
    (h : fuzzRatio s t = 100) : t = s := by
  unfold fuzzRatio at h
  have hlen : s.length ≠ 0 := by simpa using hs
  rw [if_neg (by omega)] at h
  have hpos : (0 : ℚ) < (s.length : ℚ) + (t.length : ℚ) := by
    have h0 : 0 < s.length + t.length := by omega
    exact_mod_cast h0
  rw [div_eq_iff (ne_of_gt hpos)] at h
  have h' : 200 * lcsLen s t = 100 * (s.length + t.length) := by
    exact_mod_cast h
  have h₁ := lcsLen_le_left s t
  have h₂ := lcsLen_le_right s t
  have hsl : lcsLen s t = s.length := by omega
  have hll : s.length = t.length := by omega
  exact (eq_of_lcsLen_eq_lengths s t hsl hll).symm

/-! ## `GazetteerNER._best_span` (src/ner_model.py)

```python
n, m = len(text_lc), len(pat_lc)
best = (-1, -1, -1)
lo = max(1, m - self.max_dev)
hi = min(n, m + self.max_dev)
for win in range(lo, hi + 1):
    for i in range(0, n - win + 1):
        score = fuzz.ratio(pat_lc, text_lc[i : i + win])
        if score > best[2]:
            best = (i, i + win, score)
if best[2] >= self.threshold:
    return best
return None
```

Start/end indices are modelled as `ℤ` (the initial sentinel is `(-1, -1, -1)`),
scores as `ℚ`.  `max(1, m - max_dev)` in Python is integer arithmetic; since
`max 1 x = 1` for every `x ≤ 0`, the ℕ-truncated form `max 1 (m - d)` agrees
with it. -/

/-- Python slice `text[i : i + win]` (within bounds whenever `i + win ≤ n`). -/
def pySlice (text : List Char) (i win : Nat) : List Char :=
  (text.drop i).take win

/-- `lo = max(1, m - self.max_dev)`. -/
def windowLo (m d : Nat) : Nat := max 1 (m - d)

/-- `hi = min(n, m + self.max_dev)`. -/
def windowHi (n m d : Nat) : Nat := min n (m + d)

/-- `range(lo, hi + 1)`: the candidate window lengths tried by `_best_span`. -/
def windowList (n m d : Nat) : List Nat :=
  List.range' (windowLo m d) (windowHi n m d + 1 - windowLo m d)

/-- The running-maximum update `if score > best[2]: best = (i, i+win, score)`. -/
def spanStep (best c : ℤ × ℤ × ℚ) : ℤ × ℤ × ℚ :=
  if c.2.2 > best.2.2 then c else best

/-- All candidate triples `(i, i + win, fuzz.ratio(pat, text[i:i+win]))`, in the
exact order the double loop of `_best_span` visits them: window length
ascending, then start offset ascending. -/
def candidates (text pat : List Char) (d : Nat) : List (ℤ × ℤ × ℚ) :=
  (windowList text.length pat.length d).flatMap fun win =>
    (List.range (text.length - win + 1)).map fun (i : Nat) =>
      ((i : ℤ), ((i + win : Nat) : ℤ), fuzzRatio pat (pySlice text i win))

/-- `GazetteerNER._best_span`: the nested loops fold `spanStep` over the
candidates starting from the sentinel `(-1, -1, -1)`; the result is returned
iff its score reaches the threshold. -/
def bestSpan (text pat : List Char) (threshold : ℚ) (d : Nat) :
    Option (ℤ × ℤ × ℚ) :=
  let best := (candidates text pat d).foldl spanStep (-1, -1, -1)
  if best.2.2 ≥ threshold then some best else none

/-! ### Characterization of the running maximum -/

/-- Complete description of a `spanStep` fold: either no candidate beats the
initial accumulator and it is returned unchanged, or the result is the first
candidate (in list order) whose score strictly exceeds everything before it and
is not strictly exceeded later — i.e. the first candidate attaining the
maximum. -/
theorem foldl_spanStep_spec (l : List (ℤ × ℤ × ℚ)) (b : ℤ × ℤ × ℚ) :
    (l.foldl spanStep b = b ∧ ∀ c ∈ l, c.2.2 ≤ b.2.2) ∨
    (∃ l₁ l₂, l = l₁ ++ l.foldl spanStep b :: l₂ ∧
      b.2.2 < (l.foldl spanStep b).2.2 ∧
      (∀ c ∈ l₁, c.2.2 < (l.foldl spanStep b).2.2) ∧
      (∀ c ∈ l₂, c.2.2 ≤ (l.foldl spanStep b).2.2)) := by
  induction l generalizing b with
  | nil => exact Or.inl ⟨rfl, by simp⟩
  | cons a l ih =>
    by_cases h : a.2.2 > b.2.2
    · have hstep : spanStep b a = a := by simp [spanStep, h]
      simp only [List.foldl_cons, hstep]
      rcases ih a with ⟨heq, hle⟩ | ⟨l₁, l₂, hsplit, hlt, h₁, h₂⟩
      · right
        exact ⟨[], l, by simp [heq], by rw [heq]; exact h, by simp, by rw [heq]; exact hle⟩
      · right
        refine ⟨a :: l₁, l₂, by rw [List.cons_append, ← hsplit], ?_, ?_, h₂⟩
        · exact lt_trans h hlt
        · intro c hc
          rcases List.mem_cons.mp hc with rfl | hc
          · exact hlt
          · exact h₁ c hc
    · have hstep : spanStep b a = b := by simp [spanStep, h]
      simp only [List.foldl_cons, hstep]
      rcases ih b with ⟨heq, hle⟩ | ⟨l₁, l₂, hsplit, hlt, h₁, h₂⟩
      · left
        refine ⟨heq, ?_⟩
        intro c hc
        rcases List.mem_cons.mp hc with rfl | hc
        · exact le_of_not_lt h
        · exact hle c hc
      · right
        refine ⟨a :: l₁, l₂, by rw [List.cons_append, ← hsplit], hlt, ?_, h₂⟩
        intro c hc
        rcases List.mem_cons.mp hc with rfl | hc
        · exact lt_of_le_of_lt (le_of_not_lt h) hlt
        · exact h₁ c hc

/-- The fold result's score dominates the score of every list element. -/
theorem foldl_spanStep_ge (l : List (ℤ × ℤ × ℚ)) (b : ℤ × ℤ × ℚ) :
    ∀ c ∈ l, c.2.2 ≤ (l.foldl spanStep b).2.2 := by
  rcases foldl_spanStep_spec l b with ⟨heq, hle⟩ | ⟨l₁, l₂, hsplit, _, h₁, h₂⟩
  · intro c hc; rw [heq]; exact hle c hc
  · intro c hc
    rw [hsplit] at hc
    rcases List.mem_append.mp hc with hc | hc
    · exact le_of_lt (h₁ c hc)
    · rcases List.mem_cons.mp hc with rfl | hc
      · exact le_refl _
      · exact h₂ c hc

/-- The fold result's score dominates the initial accumulator's score. -/
theorem foldl_spanStep_ge_init (l : List (ℤ × ℤ × ℚ)) (b : ℤ × ℤ × ℚ) :
    b.2.2 ≤ (l.foldl spanStep b).2.2 := by
  rcases foldl_spanStep_spec l b with ⟨heq, _⟩ | ⟨_, _, _, hlt, _, _⟩
  · rw [heq]
  · exact le_of_lt hlt

/-- The fold result is the initial accumulator or a member of the list. -/
theorem foldl_spanStep_mem (l : List (ℤ × ℤ × ℚ)) (b : ℤ × ℤ × ℚ) :
    l.foldl spanStep b = b ∨ l.foldl spanStep b ∈ l := by
  rcases foldl_spanStep_spec l b with ⟨heq, _⟩ | ⟨l₁, l₂, hsplit, _, _, _⟩
  · exact Or.inl heq
  · right
    conv_lhs => rw [hsplit]
    exact List.mem_append.mpr (Or.inr (List.mem_cons_self _ _))

/-! ### Structure of the candidate list -/

/-- Every candidate triple comes from a window length in `[lo, hi]` and a start
offset `i ≤ n - win`, with end offset `i + win` and the indicated score. -/
theorem mem_candidates_iff (text pat : List Char) (d : Nat) (c : ℤ × ℤ × ℚ) :
    c ∈ candidates text pat d ↔
      ∃ win i : Nat, windowLo pat.length d ≤ win ∧
        win ≤ windowHi text.length pat.length d ∧
        i + win ≤ text.length ∧
        c = ((i : ℤ), ((i + win : Nat) : ℤ), fuzzRatio pat (pySlice text i win)) := by
  unfold candidates windowList
  constructor
  · intro hc
    rcases List.mem_flatMap.mp hc with ⟨win, hwin, hc⟩
    rcases List.mem_map.mp hc with ⟨i, hi, rfl⟩
    rcases List.mem_range'.mp hwin with ⟨k, hk, hwk⟩
    rw [one_mul] at hwk
    subst hwk
    have hi' := List.mem_range.mp hi
    have hhn : windowHi text.length pat.length d ≤ text.length := Nat.min_le_left _ _
    exact ⟨windowLo pat.length d + k, i, Nat.le_add_right _ _, by omega, by omega, rfl⟩
  · rintro ⟨win, i, hlo, hhi, hiw, rfl⟩
    refine List.mem_flatMap.mpr ⟨win, ?_, ?_⟩
    · exact List.mem_range'.mpr ⟨win - windowLo pat.length d, by omega, by omega⟩
    · exact List.mem_map.mpr ⟨i, List.mem_range.mpr (by omega), rfl⟩

/-- The slice taken by a candidate has exactly the window length. -/
theorem length_pySlice (text : List Char) (i win : Nat) (h : i + win ≤ text.length) :
    (pySlice text i win).length = win := by
  unfold pySlice
  rw [List.length_take, List.length_drop]
  omega

/-- Candidate scores are `fuzz.ratio` values, hence nonnegative. -/
theorem candidates_score_nonneg (text pat : List Char) (d : Nat) :
    ∀ c ∈ candidates text pat d, 0 ≤ c.2.2 := by
  intro c hc
  rcases (mem_candidates_iff text pat d c).mp hc with ⟨win, i, _, _, _, rfl⟩
  exact fuzzRatio_nonneg _ _

/-- Candidate scores are `fuzz.ratio` values, hence at most 100. -/
theorem candidates_score_le_100 (text pat : List Char) (d : Nat) :
    ∀ c ∈ candidates text pat d, c.2.2 ≤ 100 := by
  intro c hc
  rcases (mem_candidates_iff text pat d c).mp hc with ⟨win, i, _, _, _, rfl⟩
  exact fuzzRatio_le_100 _ _

/-- Helper: the returned value when the running maximum clears the threshold. -/
theorem bestSpan_eq_some_of_ge (text pat : List Char) (threshold : ℚ) (d : Nat)
    (h : ((candidates text pat d).foldl spanStep (-1, -1, -1)).2.2 ≥ threshold) :
    bestSpan text pat threshold d =
      some ((candidates text pat d).foldl spanStep (-1, -1, -1)) := by
  simp only [bestSpan]
  rw [if_pos h]

/-- Helper: the returned value when the running maximum misses the threshold. -/
theorem bestSpan_eq_none_of_lt (text pat : List Char) (threshold : ℚ) (d : Nat)
    (h : ¬ ((candidates text pat d).foldl spanStep (-1, -1, -1)).2.2 ≥ threshold) :
    bestSpan text pat threshold d = none := by
  simp only [bestSpan]
  rw [if_neg h]

/-- Helper: a returned span is a maximal-score candidate that clears
the threshold, and it is the first such candidate in loop order. -/
theorem bestSpan_some_spec (text pat : List Char) (threshold : ℚ) (d : Nat)
    (c : ℤ × ℤ × ℚ) (hthr : 0 ≤ threshold)
    (h : bestSpan text pat threshold d = some c) :
    c ∈ candidates text pat d ∧ threshold ≤ c.2.2 ∧
      ∃ l₁ l₂, candidates text pat d = l₁ ++ c :: l₂ ∧
        (∀ c' ∈ l₁, c'.2.2 < c.2.2) ∧ (∀ c' ∈ l₂, c'.2.2 ≤ c.2.2) := by
  by_cases hge : ((candidates text pat d).foldl spanStep (-1, -1, -1)).2.2 ≥ threshold
  · rw [bestSpan_eq_some_of_ge text pat threshold d hge, Option.some_inj] at h
    rcases foldl_spanStep_spec (candidates text pat d) (-1, -1, -1) with
      ⟨heq, _⟩ | ⟨l₁, l₂, hsplit, _, h₁, h₂⟩
    · exfalso
      rw [heq] at hge
      have : (-1 : ℚ) ≥ threshold := hge
      linarith
    · rw [h] at hsplit h₁ h₂ hge
      refine ⟨?_, hge, l₁, l₂, hsplit, h₁, h₂⟩
      rw [hsplit]
      exact List.mem_append.mpr (Or.inr (List.mem_cons_self _ _))
  · rw [bestSpan_eq_none_of_lt text pat threshold d hge] at h
    exact absurd h (by simp)

/-! ## Claim theorems for `_best_span` -/

/-- **C8** (confirmed).  For every text and pattern and every threshold on the
0–100 scale, whenever `best_span` returns a `SpanMatch` `(start, end, score)`,
it satisfies `0 ≤ start ≤ end ≤ len(text)` and `score ≥ threshold`; a
candidate scoring below the threshold is never returned. -/
theorem bestSpan_span_invariant (text pat : List Char) (threshold : ℚ) (d : Nat)
    (s e : ℤ) (sc : ℚ) (h0 : 0 ≤ threshold) (h100 : threshold ≤ 100)
    (h : bestSpan text pat threshold d = some (s, e, sc)) :
    0 ≤ s ∧ s ≤ e ∧ e ≤ (text.length : ℤ) ∧ threshold ≤ sc := by
  obtain ⟨hmem, hsc, -⟩ := bestSpan_some_spec text pat threshold d (s, e, sc) h0 h
  rcases (mem_candidates_iff text pat d _).mp hmem with ⟨win, i, _, _, hiw, hc⟩
  obtain ⟨rfl, rfl, rfl⟩ : (i:ℤ) = s ∧ ((i + win : Nat):ℤ) = e ∧
      fuzzRatio pat (pySlice text i win) = sc := by
    rw [Prod.mk.injEq, Prod.mk.injEq] at hc
    exact ⟨hc.1.symm, hc.2.1.symm, hc.2.2.symm⟩
  refine ⟨by positivity, by exact_mod_cast Nat.le_add_right i win, ?_, hsc⟩
  exact_mod_cast hiw

/-- Witness for C8 at `text = "ab"`, `pattern = "ab"`, threshold 90,
`max_deviation = 3`: the returned span `(0, 2, 100)` is valid. -/
theorem bestSpan_span_invariant_witness :
    0 ≤ (0 : ℤ) ∧ (0 : ℤ) ≤ 2 ∧ (2 : ℤ) ≤ (([ 'a', 'b' ] : List Char).length : ℤ) ∧
      (90 : ℚ) ≤ 100 :=
  bestSpan_span_invariant ['a', 'b'] ['a', 'b'] 90 3 0 2 100
    (by norm_num) (by norm_num) (by with_unfolding_all decide)

/-- **C6** (confirmed).  If the (nonempty) pattern occurs as a contiguous
substring of the text and the threshold does not exceed the 100 scale maximum,
`best_span` returns a match with score exactly 100 whose offsets delimit an
occurrence of the pattern.  Holds for every `max_deviation ≥ 0`. -/
theorem bestSpan_substring_perfect (text pat : List Char) (threshold : ℚ) (d : Nat)
    (hpat : pat ≠ []) (hsub : pat <:+: text) (hthr : threshold ≤ 100) :
    ∃ s : Nat, bestSpan text pat threshold d =
        some ((s : ℤ), ((s + pat.length : Nat) : ℤ), 100) ∧
      pySlice text s pat.length = pat := by
  obtain ⟨pre, suf, hpt⟩ := hsub
  have hslice : pySlice text pre.length pat.length = pat := by
    unfold pySlice
    rw [← hpt, List.append_assoc, List.drop_left, List.take_left]
  have hmlen : pre.length + pat.length ≤ text.length := by
    rw [← hpt]
    simp [List.length_append]
  have hm1 : 1 ≤ pat.length := by
    cases pat with
    | nil => exact absurd rfl hpat
    | cons a l => simp
  have hcand : ((pre.length : ℤ), ((pre.length + pat.length : Nat) : ℤ), (100 : ℚ)) ∈
      candidates text pat d := by
    rw [mem_candidates_iff]
    refine ⟨pat.length, pre.length, ?_, ?_, hmlen, ?_⟩
    · unfold windowLo; omega
    · unfold windowHi; omega
    · rw [hslice, fuzzRatio_self]
  have hge : (100 : ℚ) ≤ ((candidates text pat d).foldl spanStep (-1, -1, -1)).2.2 :=
    foldl_spanStep_ge (candidates text pat d) (-1, -1, -1) _ hcand
  have hmem : (candidates text pat d).foldl spanStep (-1, -1, -1) ∈ candidates text pat d := by
    rcases foldl_spanStep_mem (candidates text pat d) (-1, -1, -1) with heq | hmem
    · exfalso
      rw [heq] at hge
      have : (100 : ℚ) ≤ -1 := hge
      linarith
    · exact hmem
  have hsc : ((candidates text pat d).foldl spanStep (-1, -1, -1)).2.2 = 100 :=
    le_antisymm (candidates_score_le_100 text pat d _ hmem) hge
  rcases (mem_candidates_iff text pat d _).mp hmem with ⟨win, i, _, _, hiw, hcr⟩
  have hratio : fuzzRatio pat (pySlice text i win) = 100 := by
    rw [hcr] at hsc
    exact hsc
  have hwpat : pySlice text i win = pat := eq_of_fuzzRatio_eq_100 pat _ hpat hratio
  have hwin : win = pat.length := by
    rw [← hwpat, length_pySlice text i win hiw]
  refine ⟨i, ?_, by rw [← hwin]; exact hwpat⟩
  rw [bestSpan_eq_some_of_ge text pat threshold d (by rw [hsc]; linarith)]
  rw [hcr, hwin]
  have : fuzzRatio pat (pySlice text i pat.length) = 100 := by rw [← hwin]; exact hratio
  rw [this]

/-- Witness for C6 at `text = "xaby"`, `pattern = "ab"`, threshold 90,
`max_deviation = 3`. -/
theorem bestSpan_substring_perfect_witness :
    ∃ s : Nat, bestSpan ['x', 'a', 'b', 'y'] ['a', 'b'] 90 3 =
        some ((s : ℤ), ((s + (['a', 'b'] : List Char).length : Nat) : ℤ), 100) ∧
      pySlice ['x', 'a', 'b', 'y'] s (['a', 'b'] : List Char).length = ['a', 'b'] :=
  bestSpan_substring_perfect ['x', 'a', 'b', 'y'] ['a', 'b'] 90 3
    (by decide) ⟨['x'], ['y'], rfl⟩ (by norm_num)

/-- **C1** (corrected) — counterexample.  The claim says an empty pattern makes
`best_span` fail with `InvalidArgument`.  The code has no such check (and no
`InvalidArgument` exists anywhere in the repository): on `text = "abc"`,
`pattern = ""`, threshold 90, `max_deviation = 3` the loops run over windows of
length 1..3, every candidate scores 0, and the function returns `None`
normally. -/
theorem bestSpan_empty_pattern_counterexample :
    bestSpan ['a', 'b', 'c'] [] 90 3 = none := by with_unfolding_all decide

/-- **C1** (corrected) — amended claim: an empty pattern is not rejected;
`best_span` runs normally, every candidate window scores 0 against it, and for
any positive threshold the result is `none`. -/
theorem bestSpan_empty_pattern (text : List Char) (threshold : ℚ) (d : Nat)
    (hthr : 0 < threshold) : bestSpan text [] threshold d = none := by
  have hzero : ∀ c ∈ candidates text [] d, c.2.2 = 0 := by
    intro c hc
    rcases (mem_candidates_iff text [] d c).mp hc with ⟨win, i, hlo, _, hiw, rfl⟩
    have hwin : 1 ≤ win := by
      unfold windowLo at hlo
      omega
    have hne : pySlice text i win ≠ [] := by
      intro hnil
      have := length_pySlice text i win hiw
      rw [hnil] at this
      simp at this
      omega
    exact fuzzRatio_nil_left _ hne
  have hle : ((candidates text [] d).foldl spanStep (-1, -1, -1)).2.2 ≤ 0 := by
    rcases foldl_spanStep_mem (candidates text [] d) (-1, -1, -1) with heq | hmem
    · rw [heq]
      show (-1 : ℚ) ≤ 0
      norm_num
    · rw [hzero _ hmem]
  exact bestSpan_eq_none_of_lt text [] threshold d (by intro hge; linarith)

/-- Witness for the amended C1 at `text = "x"`, threshold 90,
`max_deviation = 2`. -/
theorem bestSpan_empty_pattern_witness :
    0 < (90 : ℚ) ∧ bestSpan ['x'] [] 90 2 = none :=
  ⟨by norm_num, bestSpan_empty_pattern ['x'] 90 2 (by norm_num)⟩

/-- **C7** (corrected) — counterexample.  The claim says the window range can
be empty only when `m - max_deviation` exceeds `n`.  On `text = ""`
(`n = 0`), `pattern = "a"` (`m = 1`), `max_deviation = 3` the range is empty
(`lo = 1 > 0 = hi`) although `m - max_deviation = -2` does not exceed `n = 0`. -/
theorem windowRange_empty_counterexample :
    windowHi 0 1 3 < windowLo 1 3 ∧ ¬ ((1 : ℤ) - 3 > (0 : ℤ)) := by decide

/-- **C7** (corrected) — amended claim: the candidate window range is empty
exactly when `m - max_deviation > n`, or the text is empty, or both the
pattern and `max_deviation` are zero; and whenever it is empty (and the
threshold is nonnegative) `best_span` returns `none`. -/
theorem bestSpan_empty_window_range :
    (∀ n m d : Nat, windowHi n m d < windowLo m d ↔
        ((m : ℤ) - (d : ℤ) > (n : ℤ) ∨ n = 0 ∨ (m = 0 ∧ d = 0))) ∧
    (∀ (text pat : List Char) (threshold : ℚ) (d : Nat),
        0 ≤ threshold →
        windowHi text.length pat.length d < windowLo pat.length d →
        bestSpan text pat threshold d = none) := by
  constructor
  · intro n m d
    unfold windowLo windowHi
    constructor
    · intro h
      rcases Nat.eq_zero_or_pos n with hn | hn
      · right; left; exact hn
      · rcases Nat.eq_zero_or_pos (m + d) with hmd | hmd
        · right; right; omega
        · left
          have : max 1 (m - d) = m - d := by omega
          omega
    · intro h
      rcases h with h | h | h
      · have hmd : d < m := by omega
        have : n < m - d := by omega
        omega
      · omega
      · omega
  · intro text pat threshold d hthr hempty
    have hwl : windowList text.length pat.length d = [] := by
      unfold windowList
      have : windowHi text.length pat.length d + 1 - windowLo pat.length d = 0 := by
        omega
      rw [this]
      rfl
    have hcand : candidates text pat d = [] := by
      unfold candidates
      rw [hwl]
      rfl
    refine bestSpan_eq_none_of_lt text pat threshold d ?_
    rw [hcand]
    intro hge
    have : (-1 : ℚ) ≥ threshold := hge
    linarith

/-- Witness for the amended C7 at `text = ""`, `pattern = "a"`,
threshold 90, `max_deviation = 3`. -/
theorem bestSpan_empty_window_range_witness :
    0 ≤ (90 : ℚ) ∧ windowHi 0 1 3 < windowLo 1 3 ∧
      bestSpan [] ['a'] 90 3 = none :=
  ⟨by norm_num, by decide,
    bestSpan_empty_window_range.2 [] ['a'] 90 3 (by norm_num) (by decide)⟩

set_option maxRecDepth 100000 in
/-- **C2** (corrected) — counterexample.  The claim says ties among best-scoring
candidates keep the lowest start offset (then lowest window length).  On
`text = "axxbxc"`, `pattern = "abc"`, threshold 60, `max_deviation = 3`, the
maximal score 200/3 is attained both by the whole text (start 0, window 6) and
by `"bxc"` (start 3, window 3); the loop visits windows in ascending length
order with a strict `>` comparison, so it returns start 3 — not the lowest
start. -/
theorem bestSpan_tie_break_counterexample :
    bestSpan ['a', 'x', 'x', 'b', 'x', 'c'] ['a', 'b', 'c'] 60 3 =
        some (3, 6, 200 / 3) ∧
      ((0 : ℤ), (6 : ℤ), (200 / 3 : ℚ)) ∈
        candidates ['a', 'x', 'x', 'b', 'x', 'c'] ['a', 'b', 'c'] 3 ∧
      (∀ c ∈ candidates ['a', 'x', 'x', 'b', 'x', 'c'] ['a', 'b', 'c'] 3,
        c.2.2 ≤ 200 / 3) := by with_unfolding_all decide

/-- **C2** (corrected) — amended claim: among candidates attaining the best
score, `best_span` returns the first-found one, where first-found means lowest
window length first and, among equal window lengths, lowest start offset
(the enumeration order of `candidates`), because the running-maximum comparison
is strict greater-than. -/
theorem bestSpan_tie_first_found (text pat : List Char) (threshold : ℚ) (d : Nat)
    (c : ℤ × ℤ × ℚ) (hthr : 0 ≤ threshold)
    (h : bestSpan text pat threshold d = some c) :
    ∃ l₁ l₂, candidates text pat d = l₁ ++ c :: l₂ ∧
      (∀ c' ∈ l₁, c'.2.2 < c.2.2) ∧ (∀ c' ∈ l₂, c'.2.2 ≤ c.2.2) :=
  (bestSpan_some_spec text pat threshold d c hthr h).2.2

/-- Witness for the amended C2 at `text = "a"`, `pattern = "a"`,
threshold 90, `max_deviation = 0`. -/
theorem bestSpan_tie_first_found_witness :
    ∃ l₁ l₂, candidates ['a'] ['a'] 0 = l₁ ++ ((0 : ℤ), (1 : ℤ), (100 : ℚ)) :: l₂ ∧
      (∀ c' ∈ l₁, c'.2.2 < (100 : ℚ)) ∧ (∀ c' ∈ l₂, c'.2.2 ≤ (100 : ℚ)) :=
  bestSpan_tie_first_found ['a'] ['a'] 90 0 (0, 1, 100) (by norm_num)
    (by with_unfolding_all decide)

/-! ## Data model of the resolution pipeline (src/ragchatbot.py)

`ExtractedEntity` and `ResolvedClub` are the dataclasses of `ragchatbot.py`;
`ClubInfo` is the dict returned by `WikidataConnector.get_club_info`;
`PromptPackage` is the system/user/context dict built by `PromptBuilder`.
The context mapping is modelled as an association list; optional values are
`Option String`.  The Python field `end` is called `stop` here (`end` is a
Lean keyword). -/

structure ExtractedEntity where
  text : String
  start : ℤ
  stop : ℤ
  label : String
  confidence : ℚ
  source : String
deriving DecidableEq

structure ClubInfo where
  club_name : String
  manager_name : String
  club_wikipedia_url : Option String
  club_content : Option String
  manager_wikipedia_url : Option String
  manager_content : Option String
deriving DecidableEq

structure ResolvedClub where
  club_name : String
  city_name : Option String
  manager_name : Option String
  club_content : Option String
  manager_content : Option String
deriving DecidableEq

structure PromptPackage where
  system : String
  user : String
  context : List (String × Option String)
deriving DecidableEq

/-- The `ResolvedClub(...)` constructed in `RAGChatbot.process_query`:
`club_name` from the lookup record, `city_name` from the matched entity's own
text, the rest from the lookup record. -/
def mkResolvedClub (e : ExtractedEntity) (info : ClubInfo) : ResolvedClub :=
  { club_name := info.club_name
    city_name := some e.text
    manager_name := some info.manager_name
    club_content := info.club_content
    manager_content := info.manager_content }

/-! ## `PromptBuilder` (src/prompt_builder.py) -/

def systemPrompt : String :=
  "You are a German Bundesliga football expert assistant. " ++
  "You have access to current, verified information about football clubs and their coaches. " ++
  "Answer questions about coaches clearly and concisely using only the provided context. " ++
  "Be specific about coach names and include relevant background information."

/-- Python `x or default` on an optional string: the default is used when the
value is `None` or the empty string (both falsy). -/
def pyOrStr (o : Option String) (dflt : String) : String :=
  match o with
  | none => dflt
  | some s => if s = "" then dflt else s

/-- `PromptBuilder.build_manager_prompt`. -/
def buildManagerPrompt (userQuery clubName cityName managerName : String)
    (managerInfo : Option String) : PromptPackage :=
  let context :=
    "CONTEXT: " ++ "Club: " ++ clubName ++ " " ++ "City: " ++ cityName ++ " " ++
    "Current Manager: " ++ managerName ++ " " ++ "Manager Background: " ++
    pyOrStr managerInfo "Additional information not available"
  { system := systemPrompt
    user := context ++ " USER QUESTION: " ++ userQuery
    context := [("club_name", some clubName), ("manager_name", some managerName),
      ("manager_info", managerInfo)] }

def errorSystemPrompt : String :=
  "You are a helpful assistant for German Bundesliga information. " ++
  "When you cannot access the required information, explain the limitation clearly and suggest alternatives."

/-- `PromptBuilder.build_error_prompt`: the context dict has a single
`"error"` key. -/
def buildErrorPrompt (userQuery errorMsg : String) : PromptPackage :=
  { system := errorSystemPrompt
    user := "I asked: " ++ userQuery ++ " System message: " ++ errorMsg ++
      " Please explain why this information isn\x27t available and suggest how I can rephrase my question."
    context := [("error", some errorMsg)] }

/-! ## `RAGChatbot.process_query` (src/ragchatbot.py) -/

/-- `_convert_entities`: gazetteer tuples `(text, start, end, label, score)`
become `ExtractedEntity(text, start, end, label, score / 100, "gazetteer")`. -/
def convertEntities (raw : List (String × ℤ × ℤ × String × ℚ)) :
    List ExtractedEntity :=
  raw.map fun r => ⟨r.1, r.2.1, r.2.2.1, r.2.2.2.1, r.2.2.2.2 / 100, "gazetteer"⟩

/-- One insertion step of a stable descending sort on confidence: `a` goes in
front of the first element whose confidence it reaches. -/
def insertDesc (a : ExtractedEntity) : List ExtractedEntity → List ExtractedEntity
  | [] => [a]
  | b :: l => if b.confidence ≤ a.confidence then a :: b :: l else b :: insertDesc a l

/-- `entities.sort(key=lambda x: x.confidence, reverse=True)`: Python's sort is
stable and `reverse=True` preserves the original order of equal keys, which
uniquely determines the result; it is embedded as a stable insertion sort
(stability and sortedness are proved below, in `processQuery_resolution_order`). -/
def sortByConfDesc : List ExtractedEntity → List ExtractedEntity
  | [] => []
  | a :: l => insertDesc a (sortByConfDesc l)

/-- The resolution loop of `process_query`: scan the entities in order; for
each one labelled `CLUBS` or `CITIES`, call the lookup with the entity's text;
on the first record returned, build the `ResolvedClub` and `break`. -/
def resolveClub (lookup : String → Option ClubInfo) :
    List ExtractedEntity → Option ResolvedClub
  | [] => none
  | e :: rest =>
    if e.label = "CLUBS" ∨ e.label = "CITIES" then
      match lookup e.text with
      | some info => some (mkResolvedClub e info)
      | none => resolveClub lookup rest
    else resolveClub lookup rest

/-- The error reason built in the failure branch of `process_query`: the base
message, plus — when any entities were detected — the texts of at most the
first 3 entities of the (sorted-in-place) list. -/
def mkErrorReason (entities : List ExtractedEntity) : String :=
  let base := "No matching Bundesliga club found or manager information unavailable"
  if entities.isEmpty then base
  else base ++ " for detected entities: " ++
    String.intercalate ", " ((entities.take 3).map (fun e => e.text))

/-- `RAGChatbot.process_query`, parametrized by the raw gazetteer predictions
for the query and by the external knowledge lookup
(`WikidataConnector.get_club_info`).  Mirrors the source: convert, sort in
place (descending confidence), resolve, then branch on
`if resolved_club and resolved_club.manager_name` (Python truthiness: `None`
and `""` both fail it). -/
def processQuery (query : String) (gaz : List (String × ℤ × ℤ × String × ℚ))
    (lookup : String → Option ClubInfo) : PromptPackage :=
  let entities := sortByConfDesc (convertEntities gaz)
  match resolveClub lookup entities with
  | some rc =>
    if rc.manager_name.getD "" ≠ "" then
      buildManagerPrompt query rc.club_name (rc.city_name.getD "")
        (rc.manager_name.getD "") rc.manager_content
    else buildErrorPrompt query (mkErrorReason entities)
  | none => buildErrorPrompt query (mkErrorReason entities)

/-! ### Lemmas on the stable descending sort -/

theorem mem_insertDesc (a x : ExtractedEntity) (l : List ExtractedEntity) :
    x ∈ insertDesc a l ↔ x = a ∨ x ∈ l := by
  induction l with
  | nil => simp [insertDesc]
  | cons b l ih =>
    unfold insertDesc
    split
    · simp
    · simp only [List.mem_cons, ih]
      tauto

theorem insertDesc_perm (a : ExtractedEntity) (l : List ExtractedEntity) :
    (insertDesc a l).Perm (a :: l) := by
  induction l with
  | nil => simp [insertDesc]
  | cons b l ih =>
    unfold insertDesc
    split
    · exact List.Perm.refl _
    · exact List.Perm.trans (List.Perm.cons b ih) (List.Perm.swap a b l)

theorem sortByConfDesc_perm (l : List ExtractedEntity) :
    (sortByConfDesc l).Perm l := by
  induction l with
  | nil => exact List.Perm.refl _
  | cons a l ih =>
    exact List.Perm.trans (insertDesc_perm a (sortByConfDesc l)) (List.Perm.cons a ih)

theorem insertDesc_sorted (a : ExtractedEntity) (l : List ExtractedEntity)
    (h : l.Pairwise (fun x y => y.confidence ≤ x.confidence)) :
    (insertDesc a l).Pairwise (fun x y => y.confidence ≤ x.confidence) := by
  induction l with
  | nil => simp [insertDesc]
  | cons b l ih =>
    unfold insertDesc
    rcases List.pairwise_cons.mp h with ⟨hb, hl⟩
    split
    · rename_i hba
      refine List.pairwise_cons.mpr ⟨?_, h⟩
      intro x hx
      rcases List.mem_cons.mp hx with rfl | hx
      · exact hba
      · exact le_trans (hb x hx) hba
    · rename_i hba
      refine List.pairwise_cons.mpr ⟨?_, ih hl⟩
      intro x hx
      rcases (mem_insertDesc a x l).mp hx with rfl | hx
      · exact le_of_lt (lt_of_not_le hba)
      · exact hb x hx

theorem sortByConfDesc_sorted (l : List ExtractedEntity) :
    (sortByConfDesc l).Pairwise (fun x y => y.confidence ≤ x.confidence) := by
  induction l with
  | nil => simp [sortByConfDesc]
  | cons a l ih => exact insertDesc_sorted a (sortByConfDesc l) ih

theorem insertDesc_filter_conf (q : ℚ) (a : ExtractedEntity)
    (l : List ExtractedEntity) :
    (insertDesc a l).filter (fun e => e.confidence == q) =
      ((a :: l).filter (fun e => e.confidence == q)) := by
  induction l with
  | nil => rfl
  | cons b l ih =>
    unfold insertDesc
    split
    · rfl
    · rename_i hba
      by_cases hb : b.confidence = q
      · have ha : ¬ a.confidence = q := by
          intro ha
          exact hba (by rw [ha, hb])
        simp [List.filter_cons, ih, hb, ha]
      · simp [List.filter_cons, ih, hb]

/-- Stability of the embedded sort: the elements of any fixed confidence `q`
appear in the sorted list exactly as they appear in the input list. -/
theorem sortByConfDesc_filter_conf (q : ℚ) (l : List ExtractedEntity) :
    (sortByConfDesc l).filter (fun e => e.confidence == q) =
      l.filter (fun e => e.confidence == q) := by
  induction l with
  | nil => rfl
  | cons a l ih =>
    show (insertDesc a (sortByConfDesc l)).filter _ = _
    rw [insertDesc_filter_conf]
    by_cases ha : a.confidence = q
    · simp [List.filter_cons, ha, ih]
    · simp [List.filter_cons, ha, ih]

/-- The resolution loop is exactly "first successful lookup among entities
labelled `CLUBS` or `CITIES`, in list order". -/
theorem resolveClub_eq_findSome (lookup : String → Option ClubInfo)
    (l : List ExtractedEntity) :
    resolveClub lookup l =
      (l.filter (fun e => decide (e.label = "CLUBS" ∨ e.label = "CITIES"))).findSome?
        (fun e => (lookup e.text).map (mkResolvedClub e)) := by
  induction l with
  | nil => rfl
  | cons e rest ih =>
    unfold resolveClub
    by_cases hlab : e.label = "CLUBS" ∨ e.label = "CITIES"
    · rw [if_pos hlab]
      have hfil : (e :: rest).filter (fun e => decide (e.label = "CLUBS" ∨ e.label = "CITIES")) =
          e :: rest.filter (fun e => decide (e.label = "CLUBS" ∨ e.label = "CITIES")) := by
        simp [List.filter_cons, hlab]
      rw [hfil, List.findSome?_cons]
      cases hlk : lookup e.text with
      | some info => simp [hlk]
      | none => simpa [hlk] using ih
    · rw [if_neg hlab]
      have hfil : (e :: rest).filter (fun e => decide (e.label = "CLUBS" ∨ e.label = "CITIES")) =
          rest.filter (fun e => decide (e.label = "CLUBS" ∨ e.label = "CITIES")) := by
        simp [List.filter_cons, hlab]
      rw [hfil, ih]

/-! ### Claim theorems for the resolver -/

/-- **C3** (confirmed).  `process_query` attempts resolution in order of
confidence descending; the sort is a permutation of the converted entities,
sorted by descending confidence, and stable (equal confidences keep the
Predictor's emission order); resolution scans only entities labelled `CLUBS`
or `CITIES` and takes the first for which the external lookup returns a
record, after which scanning stops. -/
theorem processQuery_resolution_order (entities : List ExtractedEntity)
    (lookup : String → Option ClubInfo) :
    (sortByConfDesc entities).Perm entities ∧
    (sortByConfDesc entities).Pairwise (fun x y => y.confidence ≤ x.confidence) ∧
    (∀ q : ℚ, (sortByConfDesc entities).filter (fun e => e.confidence == q) =
      entities.filter (fun e => e.confidence == q)) ∧
    resolveClub lookup (sortByConfDesc entities) =
      ((sortByConfDesc entities).filter
          (fun e => decide (e.label = "CLUBS" ∨ e.label = "CITIES"))).findSome?
        (fun e => (lookup e.text).map (mkResolvedClub e)) :=
  ⟨sortByConfDesc_perm entities, sortByConfDesc_sorted entities,
    fun q => sortByConfDesc_filter_conf q entities,
    resolveClub_eq_findSome lookup (sortByConfDesc entities)⟩

/-- **C4** (confirmed).  If no club is resolved, or the resolved club's
manager name is absent (falsy: `None` or `""`), `process_query` returns the
failure `PromptPackage` — never the success branch — whose context mapping
contains only an `error` key; and the error reason names at most the first 3
detected entities' texts (of the sorted list). -/
theorem processQuery_failure_branch (query : String)
    (gaz : List (String × ℤ × ℤ × String × ℚ)) (lookup : String → Option ClubInfo)
    (h : ∀ rc, resolveClub lookup (sortByConfDesc (convertEntities gaz)) = some rc →
      rc.manager_name.getD "" = "") :
    processQuery query gaz lookup =
        buildErrorPrompt query (mkErrorReason (sortByConfDesc (convertEntities gaz))) ∧
      (processQuery query gaz lookup).context =
        [("error", some (mkErrorReason (sortByConfDesc (convertEntities gaz))))] ∧
      (∀ l : List ExtractedEntity, mkErrorReason l = mkErrorReason (l.take 3)) := by
  have htake : ∀ l : List ExtractedEntity, mkErrorReason l = mkErrorReason (l.take 3) := by
    intro l
    unfold mkErrorReason
    cases l with
    | nil => rfl
    | cons a l =>
      simp only [List.isEmpty_cons, List.take_take]
      rfl
  have hmain : processQuery query gaz lookup =
      buildErrorPrompt query (mkErrorReason (sortByConfDesc (convertEntities gaz))) := by
    simp only [processQuery]
    cases hres : resolveClub lookup (sortByConfDesc (convertEntities gaz)) with
    | none => rfl
    | some rc =>
      have hmgr := h rc hres
      exact if_neg (fun hne => hne hmgr)
  exact ⟨hmain, by rw [hmain]; rfl, htake⟩

/-- Witness for C4: no entities at all (`gaz = []`), so nothing resolves and
the failure package is returned. -/
theorem processQuery_failure_branch_witness :
    processQuery "Who is coaching?" [] (fun _ => none) =
        buildErrorPrompt "Who is coaching?"
          (mkErrorReason (sortByConfDesc (convertEntities []))) ∧
      (processQuery "Who is coaching?" [] (fun _ => none)).context =
        [("error", some (mkErrorReason (sortByConfDesc (convertEntities []))))] ∧
      (∀ l : List ExtractedEntity, mkErrorReason l = mkErrorReason (l.take 3)) :=
  processQuery_failure_branch "Who is coaching?" [] (fun _ => none)
    (fun _ h => Option.noConfusion h)

/-- **C9** (confirmed).  When the orchestrator resolves a club, the
`ResolvedClub.city_name` field is set to the matched entity's own text —
whatever its label (`CLUBS` or `CITIES`) — so `city_name` may hold a club
surface form. -/
theorem resolveClub_city_is_entity_text (lookup : String → Option ClubInfo)
    (l : List ExtractedEntity) (rc : ResolvedClub)
    (h : resolveClub lookup l = some rc) :
    ∃ e ∈ l, (e.label = "CLUBS" ∨ e.label = "CITIES") ∧
      ∃ info, lookup e.text = some info ∧ rc = mkResolvedClub e info ∧
        rc.city_name = some e.text := by
  induction l with
  | nil => exact Option.noConfusion h
  | cons e rest ih =>
    unfold resolveClub at h
    by_cases hlab : e.label = "CLUBS" ∨ e.label = "CITIES"
    · rw [if_pos hlab] at h
      cases hlk : lookup e.text with
      | some info =>
        rw [hlk] at h
        have hrc : rc = mkResolvedClub e info := (Option.some_inj.mp h).symm
        exact ⟨e, List.mem_cons_self _ _, hlab, info, hlk, hrc, by rw [hrc]; rfl⟩
      | none =>
        rw [hlk] at h
        rcases ih h with ⟨e', he', rest'⟩
        exact ⟨e', List.mem_cons_of_mem _ he', rest'⟩
    · rw [if_neg hlab] at h
      rcases ih h with ⟨e', he', rest'⟩
      exact ⟨e', List.mem_cons_of_mem _ he', rest'⟩

/-- Witness for C9: a `CLUBS`-labelled entity resolves, and the resulting
`city_name` holds the club surface form `"bayern"`. -/
theorem resolveClub_city_is_entity_text_witness :
    ∃ e ∈ ([⟨"bayern", 16, 22, "CLUBS", 95 / 100, "gazetteer"⟩] :
        List ExtractedEntity),
      (e.label = "CLUBS" ∨ e.label = "CITIES") ∧
      ∃ info, (fun (_ : String) =>
          some (⟨"FC Bayern Munich", "Vincent Kompany", none, none, none, none⟩ :
            ClubInfo)) e.text = some info ∧
        mkResolvedClub ⟨"bayern", 16, 22, "CLUBS", 95 / 100, "gazetteer"⟩
            ⟨"FC Bayern Munich", "Vincent Kompany", none, none, none, none⟩ =
          mkResolvedClub e info ∧
        (mkResolvedClub ⟨"bayern", 16, 22, "CLUBS", 95 / 100, "gazetteer"⟩
            ⟨"FC Bayern Munich", "Vincent Kompany", none, none, none, none⟩).city_name =
          some e.text :=
  resolveClub_city_is_entity_text
    (fun _ => some ⟨"FC Bayern Munich", "Vincent Kompany", none, none, none, none⟩)
    [⟨"bayern", 16, 22, "CLUBS", 95 / 100, "gazetteer"⟩]
    (mkResolvedClub ⟨"bayern", 16, 22, "CLUBS", 95 / 100, "gazetteer"⟩
      ⟨"FC Bayern Munich", "Vincent Kompany", none, none, none, none⟩)
    rfl

/-! ## `GazetteerData._fill_b_clubs` (src/ner_model.py)

```python
clubs = []
for club in raw_clubs:
    clubs.append(club.lower())
    longest = max(club.split(), key=len)
    clubs.append(longest.lower())
cities = []
for c in raw_cities:
    parts = c.split()
    if parts:
        cities.append(parts[0].lower())
    cities.append(c.lower())
self.entities = {"CLUBS": set(clubs), "CITIES": set(cities)}
```

Names are modelled as `List Char`.  `max([], key=len)` raises `ValueError`, so
the club pass is `Option`-valued and fails when some club name has no
whitespace-delimited token.  The final `set(...)` conversion only collapses
duplicates, so membership in the produced sets coincides with membership in
the lists built here. -/

def lowerLC (s : List Char) : List Char := s.map Char.toLower

/-- Worker for Python `str.split()` (no separator: split at runs of
whitespace, no empty tokens); `acc` holds the current token reversed. -/
def pySplitAux : List Char → List Char → List (List Char)
  | [], acc => if acc = [] then [] else [acc.reverse]
  | c :: rest, acc =>
    if c.isWhitespace then
      if acc = [] then pySplitAux rest []
      else acc.reverse :: pySplitAux rest []
    else pySplitAux rest (c :: acc)

/-- Python `s.split()`. -/
def pySplit (s : List Char) : List (List Char) := pySplitAux s []

/-- Python `max(ts, key=len)`: `None` (a `ValueError`) on an empty list;
ties keep the first maximal element, since the comparison is strict. -/
def pyMaxLen : List (List Char) → Option (List Char)
  | [] => none
  | t :: rest =>
    some (rest.foldl (fun acc x => if x.length > acc.length then x else acc) t)

/-- The club pass: each club contributes its full lowercased name and its
longest whitespace token (lowercased); a club with no token aborts the whole
construction (`max` of an empty sequence raises). -/
def fillClubs : List (List Char) → Option (List (List Char))
  | [] => some []
  | club :: rest =>
    match pyMaxLen (pySplit club) with
    | none => none
    | some longest =>
      (fillClubs rest).map (fun l => lowerLC club :: lowerLC longest :: l)

/-- The city pass: each city contributes its first token (when it has one)
followed by its full lowercased name — the full name is appended
unconditionally. -/
def fillCities : List (List Char) → List (List Char)
  | [] => []
  | c :: rest =>
    (match pySplit c with
      | [] => ([] : List (List Char))
      | p :: _ => [lowerLC p]) ++ (lowerLC c :: fillCities rest)

/-- `GazetteerData._fill_b_clubs` restricted to its pure preprocessing core,
parametrized by the raw club and city name lists fetched from Wikidata. -/
def fillBClubs (rawClubs rawCities : List (List Char)) :
    Option (List (List Char) × List (List Char)) :=
  (fillClubs rawClubs).map (fun clubs => (clubs, fillCities rawCities))

theorem pySplitAux_tokens_ne_nil :
    ∀ (s acc : List Char), ∀ t ∈ pySplitAux s acc, t ≠ [] := by
  intro s
  induction s with
  | nil =>
    intro acc t ht
    unfold pySplitAux at ht
    split at ht
    · simp at ht
    · rename_i hacc
      simp only [List.mem_singleton] at ht
      subst ht
      intro hnil
      exact hacc (by simpa using hnil)
  | cons c rest ih =>
    intro acc t ht
    unfold pySplitAux at ht
    split at ht
    · split at ht
      · exact ih [] t ht
      · rename_i hacc
        rcases List.mem_cons.mp ht with rfl | ht
        · intro hnil
          exact hacc (by simpa using hnil)
        · exact ih [] t ht
    · exact ih _ t ht

theorem pySplit_tokens_ne_nil (s : List Char) : ∀ t ∈ pySplit s, t ≠ [] :=
  pySplitAux_tokens_ne_nil s []

theorem pySplit_nil : pySplit [] = [] := rfl

theorem foldl_pickLonger_mem (l : List (List Char)) (acc : List Char) :
    l.foldl (fun acc x => if x.length > acc.length then x else acc) acc = acc ∨
      l.foldl (fun acc x => if x.length > acc.length then x else acc) acc ∈ l := by
  induction l generalizing acc with
  | nil => exact Or.inl rfl
  | cons x l ih =>
    simp only [List.foldl_cons]
    rcases ih (if x.length > acc.length then x else acc) with heq | hmem
    · rw [heq]
      split
      · exact Or.inr (List.mem_cons_self _ _)
      · exact Or.inl rfl
    · exact Or.inr (List.mem_cons_of_mem _ hmem)

theorem pyMaxLen_mem (ts : List (List Char)) (t : List Char)
    (h : pyMaxLen ts = some t) : t ∈ ts := by
  cases ts with
  | nil => exact Option.noConfusion h
  | cons x ts =>
    have heq := Option.some_inj.mp h
    rcases foldl_pickLonger_mem ts x with hx | hmem
    · rw [← heq, hx]
      exact List.mem_cons_self _ _
    · rw [← heq]
      exact List.mem_cons_of_mem _ hmem

/-- The club pass succeeds when every club name has at least one token, and
then no produced entry is empty. -/
theorem fillClubs_spec (rawClubs : List (List Char))
    (h : ∀ c ∈ rawClubs, pySplit c ≠ []) :
    ∃ clubs, fillClubs rawClubs = some clubs ∧ [] ∉ clubs := by
  induction rawClubs with
  | nil => exact ⟨[], rfl, by simp⟩
  | cons club rest ih =>
    obtain ⟨clubs', hrest, hne⟩ := ih (fun c hc => h c (List.mem_cons_of_mem _ hc))
    have hsp : pySplit club ≠ [] := h club (List.mem_cons_self _ _)
    cases hml : pyMaxLen (pySplit club) with
    | none =>
      exfalso
      cases hspc : pySplit club with
      | nil => exact hsp hspc
      | cons t ts =>
        rw [hspc] at hml
        exact Option.noConfusion hml
    | some longest =>
      refine ⟨lowerLC club :: lowerLC longest :: clubs', ?_, ?_⟩
      · unfold fillClubs
        rw [hml, hrest]
        rfl
      · have hclub : club ≠ [] := fun hnil => hsp (by rw [hnil]; rfl)
        have hlong : longest ≠ [] :=
          pySplit_tokens_ne_nil club longest (pyMaxLen_mem _ _ hml)
        intro hmem
        rcases List.mem_cons.mp hmem with heq | hmem
        · exact hclub (by simpa [lowerLC] using heq.symm)
        · rcases List.mem_cons.mp hmem with heq | hmem
          · exact hlong (by simpa [lowerLC] using heq.symm)
          · exact hne hmem

/-- The empty string is among the produced city entries exactly when an empty
raw city name was supplied (its full lowercased form is appended
unconditionally; first tokens are never empty). -/
theorem mem_nil_fillCities (rawCities : List (List Char)) :
    [] ∈ fillCities rawCities ↔ [] ∈ rawCities := by
  induction rawCities with
  | nil => simp [fillCities]
  | cons c rest ih =>
    unfold fillCities
    cases hsp : pySplit c with
    | nil =>
      simp only [List.nil_append, List.mem_cons, ih, lowerLC]
      constructor
      · rintro (hl | hr)
        · exact Or.inl (by simpa using hl.symm)
        · exact Or.inr hr
      · rintro (rfl | hr)
        · exact Or.inl rfl
        · exact Or.inr hr
    | cons p ps =>
      have hp : p ≠ [] :=
        pySplit_tokens_ne_nil c p (by rw [hsp]; exact List.mem_cons_self _ _)
      simp only [List.cons_append, List.nil_append, List.mem_cons, ih, lowerLC]
      constructor
      · rintro (hl | hl | hr)
        · exact absurd hl.symm (by simpa using hp)
        · exact Or.inl (by simpa using hl.symm)
        · exact Or.inr hr
      · rintro (rfl | hr)
        · exact Or.inr (Or.inl rfl)
        · exact Or.inr (Or.inr hr)

/-! ### Claim theorems for the gazetteer -/

/-- **C5** (corrected) — counterexample.  The claim says empty names are
skipped without error and no stored entry is empty.  In fact an empty club
name makes `max("".split(), key=len)` raise a `ValueError` (construction
fails), and an empty city name is not skipped: its full lowercased form `""`
is stored in the `CITIES` set. -/
theorem gazetteer_empty_name_counterexample :
    fillBClubs [[]] [] = none ∧
      fillBClubs [] [[]] = some ([], [[]]) ∧
      [] ∈ fillCities [[]] := by decide

/-- **C5** (corrected) — amended claim: if every raw club name contains at
least one whitespace-delimited token, construction succeeds, club entries are
all nonempty (full lowercased name plus longest token), and the empty string
appears among the city entries precisely when some raw city name is empty
(first token plus full lowercased name, the latter appended unconditionally). -/
theorem gazetteer_construction (rawClubs rawCities : List (List Char))
    (h : ∀ c ∈ rawClubs, pySplit c ≠ []) :
    (∃ clubs, fillBClubs rawClubs rawCities = some (clubs, fillCities rawCities) ∧
        [] ∉ clubs) ∧
      ([] ∈ fillCities rawCities ↔ [] ∈ rawCities) := by
  obtain ⟨clubs, hc, hne⟩ := fillClubs_spec rawClubs h
  refine ⟨⟨clubs, ?_, hne⟩, mem_nil_fillCities rawCities⟩
  unfold fillBClubs
  rw [hc]
  rfl

/-- Witness for the amended C5 on club `"st pauli"` and city `"hamburg"`. -/
theorem gazetteer_construction_witness :
    (∃ clubs,
        fillBClubs [['s', 't', ' ', 'p', 'a', 'u', 'l', 'i']]
            [['h', 'a', 'm', 'b', 'u', 'r', 'g']] =
          some (clubs, fillCities [['h', 'a', 'm', 'b', 'u', 'r', 'g']]) ∧
        [] ∉ clubs) ∧
      ([] ∈ fillCities [['h', 'a', 'm', 'b', 'u', 'r', 'g']] ↔
        [] ∈ [['h', 'a', 'm', 'b', 'u', 'r', 'g']]) :=
  gazetteer_construction [['s', 't', ' ', 'p', 'a', 'u', 'l', 'i']]
    [['h', 'a', 'm', 'b', 'u', 'r', 'g']] (by decide)

/-! ## `WikidataConnector.get_club_info` (src/wikidata_connector.py)

The SPARQL response is modelled as a list of bindings; each binding's
`.get(key, {}).get("value")` chain is an `Option String` field.  The Wikipedia
content fetch (`get_wikipedia_content_from_wikidata`, network I/O, including
the QID extraction from the entity URL) is an oracle `wiki : String →
Option String` applied to the stored URL. -/

structure Binding where
  club : Option String
  clubLabel : Option String
  manager : Option String
  managerLabel : Option String
deriving DecidableEq

/-- Python truthiness of an optional string: `None` and `""` are falsy. -/
def pyTruthy : Option String → Bool
  | none => false
  | some s => s != ""

/-- `club_name.replace(" ", "_")`. -/
def replaceSpaces (s : String) : String :=
  String.map (fun c => if c = ' ' then '_' else c) s

def wikiUrlFor (name : String) : String :=
  "https://en.wikipedia.org/wiki/" ++ replaceSpaces name

/-- `WikidataConnector.get_club_info`: `None` when the response has no
bindings; otherwise a record from the first binding, with labels defaulting to
`"Unknown Club"` / `"Unknown Manager"`, optionally enriched with Wikipedia
content (guarded by Python truthiness of the URLs and of the content). -/
def getClubInfo (bindings : List Binding) (wiki : String → Option String)
    (includeWikipedia : Bool) : Option ClubInfo :=
  match bindings with
  | [] => none
  | b :: _ =>
    let clubName := b.clubLabel.getD "Unknown Club"
    let managerName := b.managerLabel.getD "Unknown Manager"
    let info0 : ClubInfo :=
      { club_name := clubName, manager_name := managerName,
        club_wikipedia_url := none, club_content := none,
        manager_wikipedia_url := none, manager_content := none }
    some (if includeWikipedia then
      let info1 :=
        match b.club with
        | some clubUrl =>
          if clubUrl ≠ "" then
            let clubContent := wiki clubUrl
            let clubUrlField :=
              if pyTruthy clubContent then some (wikiUrlFor clubName) else none
            { info0 with club_content := clubContent, club_wikipedia_url := clubUrlField }
          else info0
        | none => info0
      match b.manager with
      | some managerUrl =>
        if managerUrl ≠ "" then
          let managerContent := wiki managerUrl
          let managerUrlField :=
            if pyTruthy managerContent then some (wikiUrlFor managerName) else none
          { info1 with manager_content := managerContent,
                       manager_wikipedia_url := managerUrlField }
        else info1
      | none => info1
    else info0)

/-! ### Claim theorems for the connector -/

/-- **C10** (corrected) — counterexample.  The claim says a returned record's
`manager_name` is always a non-empty string.  When the first binding carries a
`managerLabel` whose `value` is the empty string, the `.get("value",
"Unknown Manager")` default does not apply and the returned record's
`manager_name` is `""`. -/
theorem getClubInfo_empty_manager_counterexample :
    Option.map (fun i => i.manager_name)
        (getClubInfo [⟨none, none, none, some ""⟩] (fun _ => none) true) =
      some "" := by decide

/-- **C10** (corrected) — amended claim: a returned record always carries a
present `manager_name` string — the first binding's manager label value, with
the literal `"Unknown Manager"` as fallback when the label is absent — and it
is non-empty unless the label value itself is the empty string. -/
theorem getClubInfo_manager_name (bindings : List Binding)
    (wiki : String → Option String) (includeWikipedia : Bool) (info : ClubInfo)
    (h : getClubInfo bindings wiki includeWikipedia = some info) :
    ∃ b rest, bindings = b :: rest ∧
      info.manager_name = b.managerLabel.getD "Unknown Manager" ∧
      (b.managerLabel = none → info.manager_name = "Unknown Manager") ∧
      (b.managerLabel ≠ some "" → info.manager_name ≠ "") := by
  cases bindings with
  | nil => exact Option.noConfusion h
  | cons b rest =>
    have hmn : info.manager_name = b.managerLabel.getD "Unknown Manager" := by
      simp only [getClubInfo, Option.some_inj] at h
      subst h
      cases includeWikipedia with
      | false => rfl
      | true =>
        cases hc : b.club with
        | none =>
          cases hm : b.manager with
          | none => rfl
          | some managerUrl =>
            by_cases hmu : managerUrl ≠ "" <;> simp [hmu]
        | some clubUrl =>
          cases hm : b.manager with
          | none => by_cases hcu : clubUrl ≠ "" <;> simp [hcu]
          | some managerUrl =>
            by_cases hcu : clubUrl ≠ "" <;> by_cases hmu : managerUrl ≠ "" <;>
              simp [hcu, hmu]
    refine ⟨b, rest, rfl, hmn, ?_, ?_⟩
    · intro hnone
      rw [hmn, hnone]
      rfl
    · intro hne
      rw [hmn]
      cases hml : b.managerLabel with
      | none => simp
      | some s =>
        have : s ≠ "" := by
          intro hs
          exact hne (by rw [hml, hs])
        simpa using this

/-- Witness for the amended C10: a binding with club and manager labels,
`include_wikipedia = False`. -/
theorem getClubInfo_manager_name_witness :
    ∃ b rest,
      ([⟨none, some "Bayer 04 Leverkusen", none, some "Kasper Hjulmand"⟩] :
          List Binding) = b :: rest ∧
      ({ club_name := "Bayer 04 Leverkusen", manager_name := "Kasper Hjulmand",
          club_wikipedia_url := none, club_content := none,
          manager_wikipedia_url := none, manager_content := none } :
            ClubInfo).manager_name = b.managerLabel.getD "Unknown Manager" ∧
      (b.managerLabel = none →
        ({ club_name := "Bayer 04 Leverkusen", manager_name := "Kasper Hjulmand",
            club_wikipedia_url := none, club_content := none,
            manager_wikipedia_url := none, manager_content := none } :
              ClubInfo).manager_name = "Unknown Manager") ∧
      (b.managerLabel ≠ some "" →
        ({ club_name := "Bayer 04 Leverkusen", manager_name := "Kasper Hjulmand",
            club_wikipedia_url := none, club_content := none,
            manager_wikipedia_url := none, manager_content := none } :
              ClubInfo).manager_name ≠ "") :=
  getClubInfo_manager_name
    [⟨none, some "Bayer 04 Leverkusen", none, some "Kasper Hjulmand"⟩]
    (fun _ => none) false
    { club_name := "Bayer 04 Leverkusen", manager_name := "Kasper Hjulmand",
      club_wikipedia_url := none, club_content := none,
      manager_wikipedia_url := none, manager_content := none }
    (by decide)

end CoachRAG
